import Mathlib

/-!
Shallow embedding of the segmented-recording control loop of
`mic_recorder.py` (reference variant): disk-space admission control,
device selection, chunked segment capture with cooperative cancellation,
amplitude normalization and atomic temp-file finalization, and the
supervisor loop's failure counting / device rediscovery policy.

Host interactions (disk usage query, device enumeration, the default
input device query, per-chunk capture, the encode-write and the rename)
are passed in as explicit parameters or outcome values; filesystem
effects of `record_segment` are modelled as an event trace interpreted
over an abstract two-path filesystem state.
-/

namespace MicRecorder

/-! ## Configuration constants (`mic_recorder.py`, lines 15-34) -/

def RATE : Nat := 44100

def CHANNELS : Nat := 1

def SEGMENT_DURATION_SECONDS : Nat := 30 * 60

def CHUNK_DURATION_SECONDS : Nat := 5

def MIN_FREE_DISK_SPACE_MB : Nat := 200

def MAX_CONSECUTIVE_SEGMENT_FAILURES : Nat := 5

/-! ## Disk Space Guard (`get_free_disk_space_mb`, `check_disk_space_sufficient`,
lines 77-104).  The `shutil.disk_usage` outcome is passed in as
`diskFreeBytes : Option Nat` (`none` models the query raising). -/

/-- Embedding of `get_free_disk_space_mb`, lines 77-85: free bytes floored
to whole mebibytes, `none` when the underlying query errored. -/
def get_free_disk_space_mb (diskFreeBytes : Option Nat) : Option Nat :=
  match diskFreeBytes with
  | none => none
  | some free => some (free / (1024 * 1024))

/-- Embedding of `check_disk_space_sufficient`, lines 87-104, generalized
over the configuration constants it reads (duration, rate, channels,
bytes per sample, margin).  The estimated segment size is computed in MB
as an exact rational, mirroring the float expression
`(SEGMENT_DURATION_SECONDS * RATE * CHANNELS * 2) / (1024 * 1024)`. -/
def check_disk_space_sufficient (diskFreeBytes : Option Nat)
    (dur rate ch bps margin : Nat) : Bool :=
  match get_free_disk_space_mb diskFreeBytes with
  | none => true
  | some free_mb =>
    let est : ℚ := ((dur * rate * ch * bps : Nat) : ℚ) / (1024 * 1024)
    if (free_mb : ℚ) < est + (margin : ℚ) then false else true

/-! ## Device Catalog and Selector (`list_audio_devices_detailed`,
`find_best_input_device`, lines 106-210).  The catalog (already filtered
to input-capable devices, host order preserved) and the raw
`query_devices(kind='input')` outcome are parameters. -/

/-- One entry of the filtered catalog built by
`list_audio_devices_detailed`, lines 143-149. -/
structure Device where
  id : Nat
  name : String
  channels : Nat
  samplerate : ℚ
deriving DecidableEq

/-- Raw result of `sd.query_devices(kind='input')` as consumed on lines
181-184: the device index and its `max_input_channels`. -/
structure RawDefault where
  index : Nat
  maxInputChannels : Nat
deriving DecidableEq

/-- Whether the first character list starts the second. -/
def startsList : List Char → List Char → Bool
  | [], _ => true
  | _ :: _, [] => false
  | a :: p, b :: l => a == b && startsList p l

/-- Whether the first character list occurs contiguously in the second. -/
def hasSubList (p : List Char) : List Char → Bool
  | [] => startsList p []
  | b :: t => startsList p (b :: t) || hasSubList p t

/-- Case-insensitive substring test, embedding Python's
`needle.lower() in hay.lower()` (line 173). -/
def containsCI (needle hay : String) : Bool :=
  hasSubList needle.toLower.data hay.toLower.data

/-- Embedding of `find_best_input_device`, lines 158-210.  `dq = none`
models the default-device query raising or the guard on line 182 being
falsy for a missing record; a `some` with zero input channels falls
through to the first catalog entry, as does `none`. -/
def find_best_input_device (preferred : String) (catalog : List Device)
    (dq : Option RawDefault) : Option Nat :=
  match catalog with
  | [] => none
  | d0 :: _ =>
    let byPref : Option Nat :=
      if preferred = "" then none
      else (catalog.find? (fun d => containsCI preferred d.name)).map (fun d => d.id)
    match byPref with
    | some i => some i
    | none =>
      match dq with
      | some raw => if 0 < raw.maxInputChannels then some raw.index else some d0.id
      | none => some d0.id

/-! ## Chunk plan of `record_segment` (lines 223-250). -/

/-- Embedding of the `num_chunks` computation, lines 223-230. -/
def numChunks (d c : Nat) : Nat :=
  let n0 := d / c
  if n0 = 0 ∧ 0 < d then 1
  else if d % c ≠ 0 ∧ 0 < n0 then n0 + 1 else n0

/-- Embedding of `current_chunk_duration`, lines 223-228. -/
def curChunkDur (d c : Nat) : Nat :=
  if d / c = 0 ∧ 0 < d then d else c

/-- Embedding of `actual_chunk_duration` for chunk index `i`, lines
241-245 (the inner zero-modulus fallback is kept although unreachable
under the outer condition). -/
def actualChunkDur (d c : Nat) (i : Nat) : Nat :=
  let cur := curChunkDur d c
  if i = numChunks d c - 1 ∧ d % c ≠ 0 then
    if d % c = 0 then cur else d % c
  else cur

/-- Frames requested for chunk `i`: `int(actual_chunk_duration * RATE)`,
line 248. -/
def framesOf (d c rate : Nat) (i : Nat) : Nat := actualChunkDur d c i * rate

/-- The planned chunk durations of one segment, in loop order. -/
def plannedDurations (d c : Nat) : List Nat :=
  (List.range (numChunks d c)).map (actualChunkDur d c)

/-! ## Filesystem events of `record_segment`.  Only two paths matter:
`output_path_final` and `output_path_final + ".tmp"`.  The state starts
with neither present (the path carries a fresh timestamp). -/

/-- A filesystem effect performed by `record_segment`: writing the temp
file (line 298), the atomic rename (line 302, `shutil.move` within one
directory), or removing the temp file (lines 283 and 311). -/
inductive Ev where
  | writeTmp (content : List ℤ)
  | renameTmpFinal
  | removeTmp
deriving DecidableEq

/-- Contents (if any) at the temp path and at the final path. -/
structure FS where
  tmp : Option (List ℤ)
  final : Option (List ℤ)
deriving DecidableEq

def FS.empty : FS := ⟨none, none⟩

def applyEv (fs : FS) (e : Ev) : FS :=
  match e with
  | .writeTmp content => { fs with tmp := some content }
  | .renameTmpFinal => { tmp := none, final := fs.tmp }
  | .removeTmp => { fs with tmp := none }

def runEvs (l : List Ev) (fs : FS) : FS := l.foldl applyEv fs

/-! ## Chunked capture loop (lines 235-273).  `keep i` is the value of
the `keep_recording` flag observed at the check before chunk `i`;
`cap i` is the outcome of the blocking `sd.rec` call for chunk `i`
(`.error` models `PortAudioError` or any other exception, which aborts
the whole segment with `False`). -/

/-- Embedding of the capture loop body over the remaining chunk indices:
break on a cleared flag, skip zero-frame chunks (`continue`, line 250),
abort the segment on a capture error, otherwise collect the chunk. -/
def captureChunks (keep : Nat → Bool) (cap : Nat → Except Unit (List ℚ))
    (frames : Nat → Nat) : List Nat → Except Unit (List (List ℚ))
  | [] => .ok []
  | i :: rest =>
    if keep i then
      if frames i = 0 then captureChunks keep cap frames rest
      else
        match cap i with
        | .error e => .error e
        | .ok ch =>
          match captureChunks keep cap frames rest with
          | .error e => .error e
          | .ok t => .ok (ch :: t)
    else .ok []

/-! ## Amplitude normalization (lines 287-296). -/

/-- Peak absolute amplitude `np.max(np.abs(...))` over the concatenated
samples, as a fold (0 for the empty list; the source only reaches this
point with at least one captured chunk). -/
def peakAbs (xs : List ℚ) : ℚ := xs.foldr (fun x m => max |x| m) 0

/-- Conversion of one float sample to int16, `np.int16(...)` on line
296: C-style truncation toward zero (values stay far below full scale,
so no wraparound occurs). -/
def truncQ (q : ℚ) : ℤ := if 0 ≤ q then ⌊q⌋ else ⌈q⌉

/-- Embedding of lines 289-296: scale by `(32767 * 0.95) / peak` when
the peak is nonzero, leave unscaled otherwise, then convert each sample
to int16. -/
def normalizeSamples (xs : List ℚ) : List ℤ :=
  let peak := peakAbs xs
  let ys := if 0 < peak then xs.map (fun x => x * ((32767 * (0.95 : ℚ)) / peak)) else xs
  ys.map truncQ

/-! ## `record_segment` (lines 212-315), as a function from the host
outcomes to the returned boolean and the filesystem event trace.
`writeOk` is whether the `scipy` write succeeds (`wErr` the partial
content it leaves behind when it raises mid-write); `moveOk` is whether
the rename succeeds. -/

def record_segment (keep : Nat → Bool) (cap : Nat → Except Unit (List ℚ))
    (writeOk moveOk : Bool) (wErr : List ℤ) (device : Option Nat)
    (d c rate : Nat) : Bool × List Ev :=
  match device with
  | none => (false, [])
  | some _ =>
    match captureChunks keep cap (framesOf d c rate) (List.range (numChunks d c)) with
    | .error _ => (false, [])
    | .ok chunks =>
      if chunks.isEmpty then (false, [])
      else
        let out := normalizeSamples chunks.flatten
        if writeOk then
          if moveOk then (true, [.writeTmp out, .renameTmpFinal])
          else (false, [.writeTmp out, .removeTmp])
        else (false, [.writeTmp wErr, .removeTmp])

/-! ## Supervisor loop body (`record_audio`, lines 328-374).  One
iteration of the `while keep_recording` loop, over the outcomes it can
observe: `sel1` the selector result when entered with no device,
`diskOk` the admission check, `segSuccess` the segment outcome,
`keepAfter` the flag value at the post-segment check (line 350), `sel2`
the selector result of the post-failure rediscovery (line 361). -/

/-- Externally visible actions of one supervisor iteration, in program
order: running the selector, the disk-space pause (line 345), the
segment recording, and the short / long failure backoffs. -/
inductive Act where
  | findDevice
  | diskPause
  | record
  | shortPause
  | longPause
deriving DecidableEq

/-- Lines 343-374: the part of the loop body from the admission check
on, entered with a device in hand and the actions `pre` already taken
this iteration. -/
def record_audio_cont (threshold fails : Nat) (dev : Option Nat)
    (pre : List Act) (diskOk segSuccess keepAfter : Bool)
    (sel2 : Option Nat) : Option Nat × Nat × List Act :=
  if diskOk = false then (dev, fails, pre ++ [.diskPause])
  else
    let acts := pre ++ [.record]
    if keepAfter = false then (dev, fails, acts)
    else if segSuccess then (dev, 0, acts)
    else
      let acts := acts ++ [.findDevice]
      if threshold ≤ fails + 1 then (sel2, 0, acts ++ [.longPause])
      else (sel2, fails + 1, acts ++ [.shortPause])

/-- One full iteration of the supervisor loop body, lines 328-374:
resolves the missing-device branch (lines 329-337), then continues with
the admission check and the segment. -/
def record_audio_iter (threshold : Nat) (dev : Option Nat) (fails : Nat)
    (sel1 : Option Nat) (diskOk segSuccess keepAfter : Bool)
    (sel2 : Option Nat) : Option Nat × Nat × List Act :=
  match dev with
  | none =>
    match sel1 with
    | none => (none, fails, [.findDevice, .shortPause])
    | some i =>
      record_audio_cont threshold fails (some i) [.findDevice] diskOk segSuccess keepAfter sel2
  | some i => record_audio_cont threshold fails (some i) [] diskOk segSuccess keepAfter sel2

/-- Iterated supervisor loop over a list of segment outcomes, with the
admission check passing, the flag staying set, and rediscovery after a
failure returning the same device: the configuration of end-to-end
scenario C. -/
def record_audio_run (threshold : Nat) (dev : Option Nat) (fails : Nat) :
    List Bool → Nat × List Act
  | [] => (fails, [])
  | s :: rest =>
    let r := record_audio_iter threshold dev fails none true s true dev
    let tail := record_audio_run threshold r.1 r.2.1 rest
    (tail.1, r.2.2 ++ tail.2)

/-! ## Helper lemmas -/

theorem range_split (n k : Nat) (h : k ≤ n) :
    List.range n = List.range k ++ List.range' k (n - k) := by
  rw [List.range_eq_range', List.range_eq_range']
  have e := List.range'_append 0 k (n - k) 1
  simp only [Nat.one_mul, Nat.zero_add] at e
  rw [Nat.sub_add_cancel h] at e
  exact e.symm

theorem numChunks_eq_ceil (d c : Nat) (hd : 0 < d) (hc : 0 < c) :
    numChunks d c = (d + c - 1) / c := by
  have hsplit : d + c - 1 = (d - 1) + c := by omega
  rw [hsplit, Nat.add_div_right _ hc]
  unfold numChunks
  by_cases h0 : d / c = 0
  · have hlt : d < c := (Nat.div_eq_zero_iff hc).mp h0
    have hz : (d - 1) / c = 0 := Nat.div_eq_of_lt (by omega)
    simp [h0, hd, hz]
  · have hq : 0 < d / c := Nat.pos_of_ne_zero h0
    have hmod := Nat.div_add_mod d c
    have hrlt : d % c < c := Nat.mod_lt _ hc
    by_cases hm : d % c = 0
    · obtain ⟨qq, hqq⟩ : ∃ qq, d / c = qq + 1 := ⟨d / c - 1, by omega⟩
      have hdq : d = c * qq + c := by
        rw [hqq, Nat.mul_succ] at hmod
        omega
      have hd1 : d - 1 = c * qq + (c - 1) := by omega
      have hlt2 : c - 1 < c := by omega
      have he : (d - 1) / c = qq := by
        rw [hd1, Nat.mul_add_div hc, Nat.div_eq_of_lt hlt2]
        omega
      simp [h0, hm, he, hqq]
    · have hd1 : d - 1 = c * (d / c) + (d % c - 1) := by omega
      have hlt2 : d % c - 1 < c := by omega
      have he : (d - 1) / c = d / c := by
        rw [hd1, Nat.mul_add_div hc, Nat.div_eq_of_lt hlt2]
        omega
      simp [h0, hm, hq, he]

theorem actualChunkDur_spec (d c i : Nat) (hd : 0 < d) (hc : 0 < c)
    (hi : i < numChunks d c) :
    actualChunkDur d c i =
      if i = numChunks d c - 1 ∧ d % c ≠ 0 then d % c else c := by
  unfold actualChunkDur curChunkDur
  by_cases hcase : i = numChunks d c - 1 ∧ d % c ≠ 0
  · simp [hcase, hcase.2]
  · simp only [if_neg hcase]
    by_cases h0 : d / c = 0
    · exfalso
      have hlt : d < c := (Nat.div_eq_zero_iff hc).mp h0
      have hm : d % c = d := Nat.mod_eq_of_lt hlt
      have hn : numChunks d c = 1 := by
        unfold numChunks
        simp [h0, hd]
      exact hcase ⟨by omega, by omega⟩
    · simp [h0]

theorem actualChunkDur_pos (d c i : Nat) (hd : 0 < d) (hc : 0 < c)
    (hi : i < numChunks d c) :
    0 < actualChunkDur d c i := by
  rw [actualChunkDur_spec d c i hd hc hi]
  split
  next h => omega
  next => exact hc

theorem peakAbs_nonneg (xs : List ℚ) : 0 ≤ peakAbs xs := by
  induction xs with
  | nil => simp [peakAbs]
  | cons a t ih =>
    simp only [peakAbs, List.foldr_cons]
    exact le_trans ih (le_max_right _ _)

theorem le_peakAbs (xs : List ℚ) (x : ℚ) (hx : x ∈ xs) : |x| ≤ peakAbs xs := by
  induction xs with
  | nil => cases hx
  | cons a t ih =>
    simp only [peakAbs, List.foldr_cons]
    rcases List.mem_cons.mp hx with h | h
    · subst h
      exact le_max_left _ _
    · exact le_trans (ih h) (le_max_right _ _)

theorem peakAbs_attained (xs : List ℚ) (h : 0 < peakAbs xs) :
    ∃ x ∈ xs, |x| = peakAbs xs := by
  induction xs with
  | nil => simp [peakAbs] at h
  | cons a t ih =>
    simp only [peakAbs, List.foldr_cons] at h ⊢
    rcases le_total (t.foldr (fun x m => max |x| m) 0) |a| with hle | hle
    · exact ⟨a, List.mem_cons_self a t, (max_eq_left hle).symm⟩
    · have hpos : 0 < peakAbs t := lt_of_lt_of_le h (by rw [peakAbs]; exact max_le hle le_rfl)
      obtain ⟨x, hmem, heq⟩ := ih hpos
      refine ⟨x, List.mem_cons_of_mem a hmem, ?_⟩
      rw [heq]
      show peakAbs t = max |a| (peakAbs t)
      exact (max_eq_right hle).symm

theorem truncQ_abs_le (q : ℚ) : (|truncQ q| : ℚ) ≤ |q| := by
  unfold truncQ
  split
  · next h =>
    rw [abs_of_nonneg (by exact_mod_cast Int.floor_nonneg.mpr h), abs_of_nonneg h]
    exact Int.floor_le q
  · next h =>
    push_neg at h
    have hc : ⌈q⌉ ≤ 0 := Int.ceil_le.mpr (by exact_mod_cast le_of_lt h)
    rw [abs_of_nonpos (by exact_mod_cast hc), abs_of_nonpos (le_of_lt h)]
    have := Int.le_ceil q
    linarith

theorem truncQ_abs_ge_one (q : ℚ) (h : 1 ≤ |q|) : 1 ≤ |truncQ q| := by
  unfold truncQ
  split
  · next h0 =>
    rw [abs_of_nonneg h0] at h
    have : (1 : ℤ) ≤ ⌊q⌋ := by
      rw [Int.le_floor]
      exact_mod_cast h
    calc (1 : ℤ) ≤ ⌊q⌋ := this
    _ ≤ |⌊q⌋| := le_abs_self _
  · next h0 =>
    push_neg at h0
    rw [abs_of_nonpos (le_of_lt h0)] at h
    have hq1 : q ≤ -1 := by linarith
    have : ⌈q⌉ ≤ -1 := by
      rw [Int.ceil_le]
      exact_mod_cast hq1
    calc (1 : ℤ) ≤ -⌈q⌉ := by omega
    _ ≤ |⌈q⌉| := neg_le_abs _

theorem captureChunks_all (keep : Nat → Bool) (cap : Nat → Except Unit (List ℚ))
    (frames : Nat → Nat) (chs : Nat → List ℚ) (l : List Nat)
    (hk : ∀ i ∈ l, keep i = true) (hf : ∀ i ∈ l, frames i ≠ 0)
    (hcap : ∀ i ∈ l, cap i = .ok (chs i)) :
    captureChunks keep cap frames l = .ok (l.map chs) := by
  induction l with
  | nil => rfl
  | cons a t ih =>
    have ha := hk a (List.mem_cons_self a t)
    have hfa := hf a (List.mem_cons_self a t)
    have hca := hcap a (List.mem_cons_self a t)
    have iht := ih (fun i hi => hk i (List.mem_cons_of_mem a hi))
      (fun i hi => hf i (List.mem_cons_of_mem a hi))
      (fun i hi => hcap i (List.mem_cons_of_mem a hi))
    simp [captureChunks, ha, hfa, hca, iht]

theorem captureChunks_stop (keep : Nat → Bool) (cap : Nat → Except Unit (List ℚ))
    (frames : Nat → Nat) (chs : Nat → List ℚ) (l : List Nat) (j : Nat) (t : List Nat)
    (hk : ∀ i ∈ l, keep i = true) (hf : ∀ i ∈ l, frames i ≠ 0)
    (hcap : ∀ i ∈ l, cap i = .ok (chs i)) (hj : keep j = false) :
    captureChunks keep cap frames (l ++ j :: t) = .ok (l.map chs) := by
  induction l with
  | nil => simp [captureChunks, hj]
  | cons a t1 ih =>
    have ha := hk a (List.mem_cons_self a t1)
    have hfa := hf a (List.mem_cons_self a t1)
    have hca := hcap a (List.mem_cons_self a t1)
    have iht := ih (fun i hi => hk i (List.mem_cons_of_mem a hi))
      (fun i hi => hf i (List.mem_cons_of_mem a hi))
      (fun i hi => hcap i (List.mem_cons_of_mem a hi))
    simp [captureChunks, ha, hfa, hca, iht]

/-! ## Claim theorems -/

/-- C1: the Disk Space Guard returns `true` when the free-space query
errors; for a successful query it returns `false` exactly when the free
space (floored to MB) is below the estimated segment size plus the
configured margin, the estimate being
`duration × sample_rate × channels × bytes_per_sample` bytes expressed
in MB. -/
theorem check_disk_space_sufficient_iff (dur rate ch bps margin : Nat) :
    check_disk_space_sufficient none dur rate ch bps margin = true ∧
    ∀ free : Nat,
      (check_disk_space_sufficient (some free) dur rate ch bps margin = false ↔
        ((free / (1024 * 1024) : Nat) : ℚ) <
          ((dur * rate * ch * bps : Nat) : ℚ) / (1024 * 1024) + (margin : ℚ)) := by
  refine ⟨rfl, fun free => ?_⟩
  by_cases h : ((free / (1024 * 1024) : Nat) : ℚ) <
      ((dur * rate * ch * bps : Nat) : ℚ) / (1024 * 1024) + (margin : ℚ)
  · simp [check_disk_space_sufficient, get_free_disk_space_mb, h]
  · simp [check_disk_space_sufficient, get_free_disk_space_mb, h]

/-- C1 witness, end-to-end scenario B: 150MB free, estimated segment
100MB, margin 200MB (the configured `MIN_FREE_DISK_SPACE_MB`) — the
Guard returns `false` since 150 < 300. -/
theorem check_disk_space_sufficient_scenario :
    check_disk_space_sufficient (some (150 * 1024 * 1024)) 100 (1024 * 1024) 1 1
      MIN_FREE_DISK_SPACE_MB = false := by
  refine ((check_disk_space_sufficient_iff 100 (1024 * 1024) 1 1
    MIN_FREE_DISK_SPACE_MB).2 (150 * 1024 * 1024)).mpr ?_
  norm_num [MIN_FREE_DISK_SPACE_MB]

/-- C2: the Device Selector follows the ordered preference policy, first
match winning: empty catalog gives `none` and a non-empty catalog always
yields a device; with a non-empty preferred substring the first
case-insensitive catalog match wins; otherwise the host default input
device wins when it reports input channels; otherwise the first catalog
device is returned. -/
theorem find_best_input_device_policy (preferred : String) (catalog : List Device)
    (dq : Option RawDefault) :
    (find_best_input_device preferred [] dq = none) ∧
    (catalog ≠ [] → (find_best_input_device preferred catalog dq).isSome = true) ∧
    (preferred ≠ "" →
      ∀ dev, catalog.find? (fun x => containsCI preferred x.name) = some dev →
        find_best_input_device preferred catalog dq = some dev.id) ∧
    (∀ d0 t raw, catalog = d0 :: t →
      (preferred = "" ∨ catalog.find? (fun x => containsCI preferred x.name) = none) →
      dq = some raw → 0 < raw.maxInputChannels →
      find_best_input_device preferred catalog dq = some raw.index) ∧
    (∀ d0 t, catalog = d0 :: t →
      (preferred = "" ∨ catalog.find? (fun x => containsCI preferred x.name) = none) →
      (dq = none ∨ ∃ raw, dq = some raw ∧ raw.maxInputChannels = 0) →
      find_best_input_device preferred catalog dq = some d0.id) := by
  refine ⟨rfl, ?_, ?_, ?_, ?_⟩
  · intro h
    rcases catalog with _ | ⟨d0, t⟩
    · exact absurd rfl h
    · by_cases hp : preferred = ""
      · rcases dq with _ | raw
        · simp [find_best_input_device, hp]
        · by_cases hch : 0 < raw.maxInputChannels <;>
            simp [find_best_input_device, hp, hch]
      · rcases hfind : (d0 :: t).find? (fun x => containsCI preferred x.name) with _ | dev <;>
          rcases dq with _ | raw
        · simp [find_best_input_device, hp, hfind]
        · by_cases hch : 0 < raw.maxInputChannels <;>
            simp [find_best_input_device, hp, hfind, hch]
        · simp [find_best_input_device, hp, hfind]
        · simp [find_best_input_device, hp, hfind]
  · intro hp dev hfind
    rcases catalog with _ | ⟨d0, t⟩
    · simp at hfind
    · simp [find_best_input_device, hp, hfind]
  · rintro d0 t raw rfl hnone rfl hch
    rcases hnone with hp | hfind
    · simp [find_best_input_device, hp, hch]
    · by_cases hp : preferred = ""
      · simp [find_best_input_device, hp, hch]
      · simp [find_best_input_device, hp, hfind, hch]
  · rintro d0 t rfl hnone hdq
    rcases hdq with rfl | ⟨raw, rfl, hz⟩
    · rcases hnone with hp | hfind
      · simp [find_best_input_device, hp]
      · by_cases hp : preferred = ""
        · simp [find_best_input_device, hp]
        · simp [find_best_input_device, hp, hfind]
    · rcases hnone with hp | hfind
      · simp [find_best_input_device, hp, hz]
      · by_cases hp : preferred = ""
        · simp [find_best_input_device, hp, hz]
        · simp [find_best_input_device, hp, hfind, hz]

/-- C2 witness, end-to-end scenario A: three enumerated input devices,
no preferred-substring match (the reference configuration's preferred
substring is empty, so the preference scan is skipped), and the default
input device reporting id 1 with 2 input channels — the Selector
returns device 1. -/
theorem find_best_input_device_scenario :
    find_best_input_device ""
      [⟨0, "Built-in", 1, 44100⟩, ⟨1, "HyperX", 2, 44100⟩, ⟨2, "Monitor", 1, 48000⟩]
      (some ⟨1, 2⟩) = some 1 :=
  (find_best_input_device_policy ""
      [⟨0, "Built-in", 1, 44100⟩, ⟨1, "HyperX", 2, 44100⟩, ⟨2, "Monitor", 1, 48000⟩]
      (some ⟨1, 2⟩)).2.2.2.1 ⟨0, "Built-in", 1, 44100⟩
      [⟨1, "HyperX", 2, 44100⟩, ⟨2, "Monitor", 1, 48000⟩] ⟨1, 2⟩ rfl (Or.inl rfl) rfl
      (by decide)

/-- C5: for positive segment and chunk durations, `record_segment`
plans exactly `⌈total / chunk⌉` chunks, each of the chunk duration
except the final one, which lasts `total mod chunk` when the total is
not an exact multiple. -/
theorem record_segment_chunk_plan (d c : Nat) (hd : 0 < d) (hc : 0 < c) :
    (plannedDurations d c).length = (d + c - 1) / c ∧
    plannedDurations d c =
      (List.range (numChunks d c)).map
        (fun i => if i = numChunks d c - 1 ∧ d % c ≠ 0 then d % c else c) := by
  constructor
  · simp [plannedDurations, numChunks_eq_ceil d c hd hc]
  · unfold plannedDurations
    apply List.map_congr_left
    intro i hi
    exact actualChunkDur_spec d c i hd hc (List.mem_range.mp hi)

/-- C5 witness, end-to-end scenario D: a 12s segment with 5s chunks is
planned as exactly 3 chunks of durations 5s, 5s and 2s. -/
theorem record_segment_chunk_plan_scenario :
    plannedDurations 12 5 = [5, 5, 2] ∧
    (plannedDurations 12 5).length = (12 + 5 - 1) / 5 :=
  ⟨by decide, (record_segment_chunk_plan 12 5 (by decide) (by decide)).1⟩

/-- C10: called without a device, `record_segment` returns `false` with
an empty effect trace, so neither the final path nor the temp path is
created. -/
theorem record_segment_no_device (keep : Nat → Bool)
    (cap : Nat → Except Unit (List ℚ)) (writeOk moveOk : Bool) (wErr : List ℤ)
    (d c rate : Nat) :
    record_segment keep cap writeOk moveOk wErr none d c rate = (false, []) ∧
    runEvs (record_segment keep cap writeOk moveOk wErr none d c rate).2 FS.empty =
      FS.empty :=
  ⟨rfl, rfl⟩

/-- C10 witness at a concrete configuration. -/
theorem record_segment_no_device_instance :
    record_segment (fun _ => true) (fun _ => .ok [1]) true true [] none 1800 5 44100 =
      (false, []) :=
  (record_segment_no_device (fun _ => true) (fun _ => .ok [1]) true true [] 1800 5 44100).1

/-- C4: whenever `record_segment` reports failure, the effect trace it
performed leaves neither a temp file nor a final file behind: every
failure path either never wrote the temp file or removed it before
returning. -/
theorem record_segment_failure_cleanup (keep : Nat → Bool)
    (cap : Nat → Except Unit (List ℚ)) (writeOk moveOk : Bool) (wErr : List ℤ)
    (device : Option Nat) (d c rate : Nat)
    (hfail : (record_segment keep cap writeOk moveOk wErr device d c rate).1 = false) :
    (runEvs (record_segment keep cap writeOk moveOk wErr device d c rate).2
        FS.empty).tmp = none ∧
    (runEvs (record_segment keep cap writeOk moveOk wErr device d c rate).2
        FS.empty).final = none := by
  rcases device with _ | dev
  · exact ⟨rfl, rfl⟩
  · rcases hcc : captureChunks keep cap (framesOf d c rate) (List.range (numChunks d c))
      with e | chunks
    · simp [record_segment, hcc, runEvs, FS.empty]
    · by_cases he : chunks.isEmpty
      · simp [record_segment, hcc, he, runEvs, FS.empty]
      · cases writeOk
        · simp [record_segment, hcc, he, runEvs, applyEv, FS.empty]
        · cases moveOk
          · simp [record_segment, hcc, he, runEvs, applyEv, FS.empty]
          · simp [record_segment, hcc, he] at hfail

/-- C4 witness: a segment whose encode-write fails after three captured
chunks reports failure and leaves no temp or final file. -/
theorem record_segment_failure_cleanup_instance :
    (runEvs (record_segment (fun _ => true) (fun _ => .ok [1]) false true [7] (some 0)
        12 5 1).2 FS.empty).tmp = none ∧
    (runEvs (record_segment (fun _ => true) (fun _ => .ok [1]) false true [7] (some 0)
        12 5 1).2 FS.empty).final = none :=
  record_segment_failure_cleanup (fun _ => true) (fun _ => .ok [1]) false true [7]
    (some 0) 12 5 1 (by decide)

/-- C3: the final path only ever comes into existence as a complete
file: after any number of performed events (any observation point of
the trace), the final path either does not exist or holds exactly the
fully written normalized recording, and in the latter case the whole
trace is the complete temp-file write followed by the single rename. -/
theorem record_segment_atomic_finalization (keep : Nat → Bool)
    (cap : Nat → Except Unit (List ℚ)) (writeOk moveOk : Bool) (wErr : List ℤ)
    (device : Option Nat) (d c rate n : Nat) :
    (runEvs ((record_segment keep cap writeOk moveOk wErr device d c rate).2.take n)
        FS.empty).final = none ∨
    (∃ chunks,
      captureChunks keep cap (framesOf d c rate) (List.range (numChunks d c)) =
        .ok chunks ∧
      chunks.isEmpty = false ∧
      (record_segment keep cap writeOk moveOk wErr device d c rate).1 = true ∧
      (record_segment keep cap writeOk moveOk wErr device d c rate).2 =
        [.writeTmp (normalizeSamples chunks.flatten), .renameTmpFinal] ∧
      (runEvs ((record_segment keep cap writeOk moveOk wErr device d c rate).2.take n)
          FS.empty).final = some (normalizeSamples chunks.flatten)) := by
  rcases device with _ | dev
  · left
    simp [record_segment, runEvs, FS.empty]
  · rcases hcc : captureChunks keep cap (framesOf d c rate) (List.range (numChunks d c))
      with e | chunks
    · left
      simp [record_segment, hcc, runEvs, FS.empty]
    · by_cases he : chunks.isEmpty
      · left
        simp [record_segment, hcc, he, runEvs, FS.empty]
      · cases writeOk
        · left
          have htr : (record_segment keep cap false moveOk wErr (some dev) d c rate).2 =
              [.writeTmp wErr, .removeTmp] := by
            simp [record_segment, hcc, he]
          rw [htr]
          rcases n with _ | n
          · simp [runEvs, FS.empty]
          · rcases n with _ | n
            · simp [runEvs, applyEv, FS.empty]
            · simp [runEvs, applyEv, FS.empty]
        · cases moveOk
          · left
            have htr : (record_segment keep cap true false wErr (some dev) d c rate).2 =
                [.writeTmp (normalizeSamples chunks.flatten), .removeTmp] := by
              simp [record_segment, hcc, he]
            rw [htr]
            rcases n with _ | n
            · simp [runEvs, FS.empty]
            · rcases n with _ | n
              · simp [runEvs, applyEv, FS.empty]
              · simp [runEvs, applyEv, FS.empty]
          · have htr : (record_segment keep cap true true wErr (some dev) d c rate).2 =
                [.writeTmp (normalizeSamples chunks.flatten), .renameTmpFinal] := by
              simp [record_segment, hcc, he]
            rcases n with _ | n
            · left
              rw [htr]
              simp [runEvs, FS.empty]
            · rcases n with _ | n
              · left
                rw [htr]
                simp [runEvs, applyEv, FS.empty]
              · right
                refine ⟨chunks, rfl, by simpa using he, ?_, htr, ?_⟩
                · simp [record_segment, hcc, he]
                · rw [htr]
                  simp [runEvs, applyEv, FS.empty]

/-- C6: if the cancellation flag is observed cleared at the check
before chunk `k` of a planned segment (having been set at every earlier
check, with every earlier capture succeeding), the capture loop stops
there: for `k = 0` the segment fails with an empty effect trace, and
for `k ≥ 1` the segment finalizes successfully using exactly the first
`k` captured chunks. -/
theorem record_segment_cancellation (keep : Nat → Bool)
    (cap : Nat → Except Unit (List ℚ)) (chs : Nat → List ℚ) (wErr : List ℤ)
    (dev : Nat) (d c rate k : Nat) (hd : 0 < d) (hc : 0 < c) (hr : 0 < rate)
    (hkn : k < numChunks d c)
    (hkeep : ∀ i, i < k → keep i = true) (hstop : keep k = false)
    (hcap : ∀ i, i < k → cap i = .ok (chs i)) :
    record_segment keep cap true true wErr (some dev) d c rate =
      if k = 0 then (false, [])
      else (true,
        [.writeTmp (normalizeSamples ((List.range k).map chs).flatten),
         .renameTmpFinal]) := by
  have hsplit : List.range (numChunks d c) =
      List.range k ++ k :: List.range' (k + 1) (numChunks d c - k - 1) := by
    rw [range_split (numChunks d c) k (le_of_lt hkn)]
    obtain ⟨m, hm⟩ : ∃ m, numChunks d c - k = m + 1 := ⟨numChunks d c - k - 1, by omega⟩
    rw [hm]
    simp [List.range'_succ]
  have hcc : captureChunks keep cap (framesOf d c rate) (List.range (numChunks d c)) =
      .ok ((List.range k).map chs) := by
    rw [hsplit]
    refine captureChunks_stop keep cap (framesOf d c rate) chs (List.range k) k _
      (fun i hi => hkeep i (List.mem_range.mp hi)) (fun i hi => ?_)
      (fun i hi => hcap i (List.mem_range.mp hi)) hstop
    have hik : i < k := List.mem_range.mp hi
    have hin : i < numChunks d c := lt_trans hik hkn
    have hpos := actualChunkDur_pos d c i hd hc hin
    unfold framesOf
    exact Nat.mul_ne_zero (by omega) (by omega)
  rcases Nat.eq_zero_or_pos k with rfl | hk
  · simp [record_segment, hcc]
  · have hk0 : k ≠ 0 := by omega
    have hne : ((List.range k).map chs).isEmpty = false := by
      rcases hrange : List.range k with _ | ⟨a, t⟩
      · exact absurd (List.range_eq_nil.mp hrange) hk0
      · rfl
    rw [if_neg hk0]
    simp [record_segment, hcc, hne]

/-- C6 witness: in a 3-chunk plan (12s total, 5s chunks) with the flag
cleared before chunk index 1, the segment finalizes with exactly the
one chunk captured before the flag was observed. -/
theorem record_segment_cancellation_instance :
    record_segment (fun i => decide (i < 1)) (fun _ => .ok [1, 1/2]) true true []
        (some 3) 12 5 1 =
      if (1 : Nat) = 0 then (false, [])
      else (true,
        [.writeTmp (normalizeSamples ((List.range 1).map (fun _ => [1, 1/2])).flatten),
         .renameTmpFinal]) :=
  record_segment_cancellation (fun i => decide (i < 1)) (fun _ => .ok [1, 1/2])
    (fun _ => [1, 1/2]) [] 3 12 5 1 1 (by decide) (by decide) (by decide) (by decide)
    (fun i hi => decide_eq_true hi) (by decide) (fun i _ => rfl)

/-- C7: the supervisor's consecutive-failure counter resets to 0 on any
successful segment, increments by one on a failure below the threshold
(taking the short pause), and on reaching the threshold takes the long
pause and resets to 0. -/
theorem record_audio_failure_counter (t f i : Nat) (sel2 : Option Nat) :
    ((record_audio_iter t (some i) f none true true true sel2).2.1 = 0) ∧
    (t ≤ f + 1 →
      record_audio_iter t (some i) f none true false true sel2 =
        (sel2, 0, [.record, .findDevice, .longPause])) ∧
    (f + 1 < t →
      record_audio_iter t (some i) f none true false true sel2 =
        (sel2, f + 1, [.record, .findDevice, .shortPause])) := by
  refine ⟨?_, ?_, ?_⟩
  · simp [record_audio_iter, record_audio_cont]
  · intro h
    simp [record_audio_iter, record_audio_cont, h]
  · intro h
    have h' : ¬ t ≤ f + 1 := by omega
    simp [record_audio_iter, record_audio_cont, h']

/-- C7 witness, end-to-end scenario C: six consecutive failures at
threshold 5 — the 5th failure takes the long pause and resets the
counter, so the 6th failure is counted as failure 1 and takes the
short pause. -/
theorem record_audio_failure_counter_scenario :
    (record_audio_run 5 (some 0) 0 [false, false, false, false, false, false]).1 = 1 ∧
    (record_audio_run 5 (some 0) 0 [false, false, false, false, false, false]).2 =
      [.record, .findDevice, .shortPause, .record, .findDevice, .shortPause,
       .record, .findDevice, .shortPause, .record, .findDevice, .shortPause,
       .record, .findDevice, .longPause, .record, .findDevice, .shortPause] ∧
    record_audio_iter 5 (some 0) 4 none true false true (some 0) =
      (some 0, 0, [.record, .findDevice, .longPause]) :=
  ⟨by decide, by decide,
   (record_audio_failure_counter 5 4 0 (some 0)).2.1 (by decide)⟩

/-- C8: when the peak absolute amplitude is nonzero, every sample is
scaled by `(0.95 × 32767) / peak` before int16 conversion, so every
written sample stays at or below full scale (32767) and a non-silent
input yields a nonzero output sample; a zero peak (silence) leaves the
samples unscaled. -/
theorem record_segment_normalization (xs : List ℚ) :
    (0 < peakAbs xs →
      normalizeSamples xs =
        xs.map (fun x => truncQ (x * ((32767 * (0.95 : ℚ)) / peakAbs xs))) ∧
      (∀ z ∈ normalizeSamples xs, |z| ≤ 32767) ∧
      ∃ z ∈ normalizeSamples xs, 0 < |z|) ∧
    (peakAbs xs = 0 → normalizeSamples xs = xs.map truncQ) := by
  constructor
  · intro hpos
    have hsn : (0 : ℚ) ≤ (32767 * (0.95 : ℚ)) / peakAbs xs :=
      div_nonneg (by norm_num) (le_of_lt hpos)
    have hdef : normalizeSamples xs =
        xs.map (fun x => truncQ (x * ((32767 * (0.95 : ℚ)) / peakAbs xs))) := by
      unfold normalizeSamples
      simp only [if_pos hpos, List.map_map]
      rfl
    refine ⟨hdef, ?_, ?_⟩
    · intro z hz
      rw [hdef] at hz
      obtain ⟨x, hx, rfl⟩ := List.mem_map.mp hz
      have h1 : |x| ≤ peakAbs xs := le_peakAbs xs x hx
      have hs : |x * ((32767 * (0.95 : ℚ)) / peakAbs xs)| ≤ 32767 * 0.95 := by
        rw [abs_mul, abs_of_nonneg hsn]
        calc |x| * ((32767 * (0.95 : ℚ)) / peakAbs xs)
            ≤ peakAbs xs * ((32767 * (0.95 : ℚ)) / peakAbs xs) :=
              mul_le_mul_of_nonneg_right h1 hsn
          _ = 32767 * 0.95 := by
              field_simp
      have hle := truncQ_abs_le (x * ((32767 * (0.95 : ℚ)) / peakAbs xs))
      have hb : (|truncQ (x * ((32767 * (0.95 : ℚ)) / peakAbs xs))| : ℚ) ≤ 32767 :=
        le_trans hle (le_trans hs (by norm_num))
      exact_mod_cast hb
    · obtain ⟨x, hx, hxe⟩ := peakAbs_attained xs hpos
      refine ⟨truncQ (x * ((32767 * (0.95 : ℚ)) / peakAbs xs)), ?_, ?_⟩
      · rw [hdef]
        exact List.mem_map.mpr ⟨x, hx, rfl⟩
      · have habs : |x * ((32767 * (0.95 : ℚ)) / peakAbs xs)| = 32767 * 0.95 := by
          rw [abs_mul, abs_of_nonneg hsn, hxe]
          field_simp
        have h1 : (1 : ℚ) ≤ |x * ((32767 * (0.95 : ℚ)) / peakAbs xs)| := by
          rw [habs]
          norm_num
        have := truncQ_abs_ge_one _ h1
        omega
  · intro hz
    simp [normalizeSamples, hz]

/-- C8 witness: a non-silent two-sample input is scaled to a peak of
31128 (strictly below full scale and strictly above zero). -/
theorem record_segment_normalization_instance :
    normalizeSamples [1, 1/2] = [31128, 15564] ∧
    (∀ z ∈ normalizeSamples [1, 1/2], |z| ≤ 32767) ∧
    (∃ z ∈ normalizeSamples [1, 1/2], 0 < |z|) := by
  have h := (record_segment_normalization [1, 1/2]).1
    (by norm_num [peakAbs, abs, max_def])
  exact ⟨by norm_num [normalizeSamples, peakAbs, truncQ, abs, max_def], h.2.1, h.2.2⟩

/-- C9: after a failed segment the supervisor always re-runs device
discovery and adopts its result, whereas a failed disk-space admission
check only pauses: the device selection is left unchanged and no
rediscovery happens on that path. -/
theorem record_audio_device_policy (t f i : Nat) (sel1 sel2 : Option Nat)
    (seg keepA : Bool) :
    (record_audio_iter t (some i) f sel1 false seg keepA sel2 =
        (some i, f, [.diskPause]) ∧
      Act.findDevice ∉
        (record_audio_iter t (some i) f sel1 false seg keepA sel2).2.2) ∧
    ((record_audio_iter t (some i) f sel1 true false true sel2).1 = sel2 ∧
      Act.findDevice ∈
        (record_audio_iter t (some i) f sel1 true false true sel2).2.2) := by
  refine ⟨⟨?_, ?_⟩, ?_, ?_⟩
  · simp [record_audio_iter, record_audio_cont]
  · simp [record_audio_iter, record_audio_cont]
  · by_cases h : t ≤ f + 1 <;> simp [record_audio_iter, record_audio_cont, h]
  · by_cases h : t ≤ f + 1 <;> simp [record_audio_iter, record_audio_cont, h]

/-- C9 witness at a concrete supervisor state. -/
theorem record_audio_device_policy_instance :
    record_audio_iter 5 (some 1) 0 none false true true (some 2) =
      (some 1, 0, [.diskPause]) ∧
    (record_audio_iter 5 (some 1) 0 none true false true (some 2)).1 = some 2 :=
  ⟨((record_audio_device_policy 5 0 1 none (some 2) true true).1).1,
   ((record_audio_device_policy 5 0 1 none (some 2) true true).2).1⟩

end MicRecorder
